import Mathlib

/-!
Verification of the hopper container-transfer engine of moyai-network/libellule
(src/server/block/hopper.go), shallowly embedded in Lean.

The hopper's own code (tick state machine, transfer protocol, persistence
adapter, placement) is translated directly from hopper.go.  The collaborators
the hopper consumes — the generic inventory container, item stacks, and the
nbtconv field accessors — live outside src/ and are modelled from the spec's
description of their interfaces; each such definition carries a doc comment
saying so.
-/

namespace Libellule

/-- The six axis-aligned block faces (cube.Face); down is the Go zero value. -/
inductive Face where
  | down
  | up
  | north
  | south
  | west
  | east
deriving DecidableEq, Repr

/-- cube.Face.Opposite. -/
def Face.Opposite : Face → Face
  | .down => .up
  | .up => .down
  | .north => .south
  | .south => .north
  | .west => .east
  | .east => .west

/-- An item stack (item.Stack): item identity and metadata collapsed into id, a
unit count, and the item's maximum stack size.  An empty stack has count 0. -/
structure Stack where
  id : Nat
  count : Nat
  maxCount : Nat
deriving DecidableEq, Repr

/-- The empty stack (the Go zero value of item.Stack). -/
def emptyStack : Stack := ⟨0, 0, 0⟩

/-- item.Stack.Empty. -/
def Stack.Empty (s : Stack) : Bool := s.count == 0

/-- item.Stack.Count. -/
def Stack.Count (s : Stack) : Int := s.count

/-- item.Stack.Grow: adjust the count by n, clamped below at zero.  Modelled
from the spec's grow-by-one wording; capacity enforcement is the container's
job in the spec, not the stack's. -/
def Stack.Grow (s : Stack) (n : Int) : Stack :=
  { s with count := ((s.count : Int) + n).toNat }

/-- item.Stack.Comparable: stacks are compatible for stacking when either is
empty or both carry the same item identity and metadata. -/
def Stack.Comparable (a b : Stack) : Bool :=
  a.Empty || b.Empty || a.id == b.id

/-- A fixed-size inventory is its ordered list of slots. -/
abbrev Inv := List Stack

/-- Total number of item units held by an inventory. -/
def Inv.total (inv : Inv) : Nat := (inv.map Stack.count).sum

/-- Modelled from the spec: the container's item accessor; an out-of-range read
errors and the hopper ignores the error, leaving the empty zero stack. -/
def Inv.item (inv : Inv) (i : Nat) : Stack := (inv[i]?).getD emptyStack

/-- Modelled from the spec: the container's setItem; an out-of-range write
errors and leaves the inventory unchanged. -/
def Inv.setItem (inv : Inv) (i : Nat) (s : Stack) : Inv := inv.set i s

/-- Modelled from the spec: the merge pass of addItem, growing the first
compatible slot that still has room by the single offered unit. -/
def Inv.addOneMerge : Inv → Stack → Option Inv
  | [], _ => none
  | t :: rest, s =>
    if !t.Empty && t.id == s.id && t.count < t.maxCount then
      some (t.Grow 1 :: rest)
    else
      (Inv.addOneMerge rest s).map (t :: ·)

/-- Modelled from the spec: the placement pass of addItem, putting the offered
unit into the first empty slot. -/
def Inv.addOnePlace : Inv → Stack → Option Inv
  | [], _ => none
  | t :: rest, s =>
    if t.Empty then some (s :: rest)
    else (Inv.addOnePlace rest s).map (t :: ·)

/-- Modelled from the spec: the container's addItem, restricted to the
single-unit stacks the hopper offers; none exactly when the container has no
room for the offered unit (the error-if-full outcome). -/
def Inv.addOne (inv : Inv) (s : Stack) : Option Inv :=
  match inv.addOneMerge s with
  | some inv2 => some inv2
  | none => inv.addOnePlace s

/-- A neighbouring block as the hopper sees it through the Container interface:
its slot storage (none models a container whose Inventory method yields nil),
an optional HopperInsertable capability reporting (accepted, target slot) for
an offered stack and face, and an optional HopperExtractable capability
nominating (stack, slot) to remove. -/
structure Container where
  inv : Option Inv
  insertCap : Option (Stack → Face → Bool × Nat)
  extractCap : Option (Stack × Nat)

/-- The two world positions one hopper tick inspects: the block the hopper
faces and the block directly above it.  none models a block that is not a
Container at all. -/
structure TickWorld where
  dest : Option Container
  above : Option Container

/-- Slot storage of the faced container, when present. -/
def TickWorld.destInv (w : TickWorld) : Option Inv := w.dest.bind Container.inv

/-- Slot storage of the container above, when present. -/
def TickWorld.aboveInv (w : TickWorld) : Option Inv := w.above.bind Container.inv

/-- The hopper block state (hopper.go).  The scalar fields are plain value
state; invRef is the identity of the heap-allocated inventory NewHopper
creates and inventory its current contents. -/
structure Hopper where
  Facing : Face
  Powered : Bool
  CustomName : String
  LastTick : Int
  TransferCooldown : Int
  CollectCooldown : Int
  invRef : Nat
  inventory : Inv
deriving DecidableEq, Repr

/-- NewHopper: a hopper with a freshly allocated five-slot inventory; ref is
the identity of that fresh allocation.  Scalar fields are Go zero values. -/
def NewHopper (ref : Nat) : Hopper :=
  { Facing := Face.down, Powered := false, CustomName := "", LastTick := 0,
    TransferCooldown := 0, CollectCooldown := 0, invRef := ref,
    inventory := List.replicate 5 emptyStack }

/-- Outcome of one transfer helper: the boolean result, the hopper's inventory
contents afterwards, and the adjacent containers afterwards. -/
structure TransferOut where
  ok : Bool
  hInv : Inv
  world : TickWorld

/-- The slot scan of insertItem over the hopper's indexed slots: skip empty
source slots; against a plain container try addItem with one unit and continue
on full; against a HopperInsertable offer one unit, continue when the offer is
rejected or the stacks are incompatible, otherwise write the grown stack to
the reported target slot.  On the first acceptance the source slot is
decremented by one unit and the scan stops. -/
def insertLoop (facing : Face) (cap : Option (Stack → Face → Bool × Nat))
    (dinv : Inv) (hInv : Inv) : List (Nat × Stack) → Bool × Inv × Inv
  | [] => (false, hInv, dinv)
  | (i, s) :: rest =>
    if s.Empty then insertLoop facing cap dinv hInv rest
    else
      match cap with
      | none =>
        match dinv.addOne (s.Grow (-s.Count + 1)) with
        | none => insertLoop facing cap dinv hInv rest
        | some dinv2 => (true, hInv.setItem i (s.Grow (-1)), dinv2)
      | some oracle =>
        let offer := s.Grow (-s.Count + 1)
        let res := oracle offer facing
        let it := dinv.item res.2
        if !res.1 || !(s.Comparable it) then
          insertLoop facing cap dinv hInv rest
        else
          (true, hInv.setItem i (s.Grow (-1)),
            dinv.setItem res.2 (if !it.Empty then it.Grow 1 else offer))

/-- insertItem (hopper.go): push one unit out through the facing side. -/
def Hopper.insertItem (h : Hopper) (w : TickWorld) : TransferOut :=
  match w.dest with
  | none => ⟨false, h.inventory, w⟩
  | some dest =>
    match dest.inv with
    | none => ⟨false, h.inventory, w⟩
    | some dinv =>
      match insertLoop h.Facing dest.insertCap dinv h.inventory h.inventory.enum with
      | (ok, hInv2, dinv2) =>
        ⟨ok, hInv2, { w with dest := some { dest with inv := some dinv2 } }⟩

/-- First non-empty indexed slot, with the Go zero values when none exists. -/
def firstNonEmpty : List (Nat × Stack) → Stack × Nat
  | [] => (emptyStack, 0)
  | (i, s) :: rest => if s.Empty then firstNonEmpty rest else (s, i)

/-- extractItem (hopper.go): pull one unit from the container above, the slot
nominated by its HopperExtractable capability when it has one and the first
non-empty slot otherwise; fail without mutating anything when the nominated
stack is empty or the hopper's own inventory is full. -/
def Hopper.extractItem (h : Hopper) (w : TickWorld) : TransferOut :=
  match w.above with
  | none => ⟨false, h.inventory, w⟩
  | some origin =>
    match origin.inv with
    | none => ⟨false, h.inventory, w⟩
    | some oinv =>
      let target :=
        match origin.extractCap with
        | none => firstNonEmpty oinv.enum
        | some p => p
      if target.1.Empty then ⟨false, h.inventory, w⟩
      else
        match h.inventory.addOne (target.1.Grow (-target.1.Count + 1)) with
        | none => ⟨false, h.inventory, w⟩
        | some hInv2 =>
          let origin2 : Container :=
            { origin with inv := some (oinv.setItem target.2 (target.1.Grow (-1))) }
          ⟨true, hInv2, { w with above := some origin2 }⟩

/-- Result of one call to Hopper.Tick: the final local snapshot, the snapshot
handed to w.SetBlock when any (none when the tick ends without publishing),
the adjacent containers afterwards, the two transfer outcomes, and whether the
transfer attempt was reached at all. -/
structure TickResult where
  hopper : Hopper
  published : Option Hopper
  world : TickWorld
  inserted : Bool
  extracted : Bool
  attempted : Bool

/-- The transfer attempt phase of Tick (hopper.go): run insertItem then
extractItem against the world; on any success set TransferCooldown to 8 and
publish the snapshot, otherwise publish nothing. -/
def Hopper.tickAttempt (h : Hopper) (w : TickWorld) : TickResult :=
  let r1 := h.insertItem w
  let h3 : Hopper := { h with inventory := r1.hInv }
  let r2 := h3.extractItem r1.world
  let h4 : Hopper := { h3 with inventory := r2.hInv }
  if r1.ok || r2.ok then
    let h5 : Hopper := { h4 with TransferCooldown := 8 }
    ⟨h5, some h5, r2.world, r1.ok, r2.ok, true⟩
  else
    ⟨h4, none, r2.world, r1.ok, r2.ok, true⟩

/-- Tick (hopper.go): decrement both cooldowns and record the tick; publish
and stop while either cooldown is still nonnegative; clamp both to zero;
publish and stop when powered; otherwise run the transfer attempt. -/
def Hopper.Tick (h : Hopper) (currentTick : Int) (w : TickWorld) : TickResult :=
  let h1 : Hopper :=
    { h with TransferCooldown := h.TransferCooldown - 1,
             CollectCooldown := h.CollectCooldown - 1,
             LastTick := currentTick }
  if h1.TransferCooldown ≥ 0 ∨ h1.CollectCooldown ≥ 0 then
    ⟨h1, some h1, w, false, false, false⟩
  else
    let h2 : Hopper := { h1 with TransferCooldown := 0, CollectCooldown := 0 }
    if h2.Powered then
      ⟨h2, some h2, w, false, false, false⟩
    else
      h2.tickAttempt w

/-- One world-level tick step: the stored block is replaced by the published
snapshot when one is published; the shared heap inventory reflects the tick's
mutations either way. -/
def tickStep (s : Hopper × TickWorld) (t : Int) : Hopper × TickWorld :=
  let r := s.1.Tick t s.2
  (r.published.getD { s.1 with inventory := r.hopper.inventory }, r.world)

/-- Repeated world-level ticks. -/
def runTicks (h : Hopper) (w : TickWorld) (ts : List Int) : Hopper × TickWorld :=
  ts.foldl tickStep (h, w)

/-- UseOnBlock (hopper.go): when the placement position is usable, place a
fresh hopper facing down, or opposite the clicked face when that face is not
down.  used models the firstReplaceable outcome and ref the fresh inventory
identity; the result is the placed hopper, none when nothing was placed. -/
def Hopper.UseOnBlock (h : Hopper) (face : Face) (used : Bool) (ref : Nat) :
    Option Hopper :=
  if !used then none
  else
    let h2 := NewHopper ref
    let h3 : Hopper := { h2 with Facing := Face.down }
    let h4 : Hopper := if h3.Facing ≠ face then { h3 with Facing := face.Opposite } else h3
    some h4

/-- A primitive NBT field value. -/
inductive NbtValue where
  | str (s : String)
  | int (n : Int)
  | items (l : List (Nat × Stack))
deriving DecidableEq, Repr

/-- The persisted field set: a flat mapping of field name to value. -/
abbrev NbtMap := List (String × NbtValue)

/-- Wrap an integer into signed 32-bit range, as Go's int32 conversion does. -/
def toInt32 (n : Int) : Int := (n + 2 ^ 31) % 2 ^ 32 - 2 ^ 31

/-- Modelled from the spec: nbtconv.String reads a string field and tolerates a
missing label field, defaulting to the empty string. -/
def nbtString (m : NbtMap) (k : String) : String :=
  match List.lookup k m with
  | some (NbtValue.str s) => s
  | _ => ""

/-- Modelled from the spec: nbtconv.Int32 reads an int32 field and tolerates a
missing cooldown field, defaulting to 0. -/
def nbtInt32 (m : NbtMap) (k : String) : Int :=
  match List.lookup k m with
  | some (NbtValue.int n) => toInt32 n
  | _ => 0

/-- Modelled from the spec: nbtconv.Slice reads the encoded inventory
entries. -/
def nbtItems (m : NbtMap) (k : String) : List (Nat × Stack) :=
  match List.lookup k m with
  | some (NbtValue.items l) => l
  | _ => []

/-- Modelled from the spec: the generic inventory encoder records the
inventory contents slot by slot. -/
def invToNBT (inv : Inv) : List (Nat × Stack) := inv.enum

/-- Modelled from the spec: replaying encoded inventory contents into a
container sets each recorded slot. -/
def invFromNBT (inv : Inv) (entries : List (Nat × Stack)) : Inv :=
  entries.foldl (fun acc p => acc.setItem p.1 p.2) inv

/-- EncodeNBT (hopper.go): emits Items, TransferCooldown (as int32), the
stable id tag, and CustomName only when the label is non-empty. -/
def Hopper.EncodeNBT (h : Hopper) : NbtMap :=
  let m : NbtMap :=
    [("Items", NbtValue.items (invToNBT h.inventory)),
     ("TransferCooldown", NbtValue.int (toInt32 h.TransferCooldown)),
     ("id", NbtValue.str "Hopper")]
  if h.CustomName ≠ "" then m ++ [("CustomName", NbtValue.str h.CustomName)] else m

/-- DecodeNBT (hopper.go): keeps only the receiver's facing and powered,
rebuilds everything else from a fresh NewHopper (ref being the identity of the
freshly allocated inventory), reads the label and cooldown from the data, and
replays the encoded contents into the fresh five-slot inventory. -/
def Hopper.DecodeNBT (h : Hopper) (data : NbtMap) (ref : Nat) : Hopper :=
  let fresh := NewHopper ref
  { fresh with
      Facing := h.Facing,
      Powered := h.Powered,
      CustomName := nbtString data "CustomName",
      TransferCooldown := nbtInt32 data "TransferCooldown",
      inventory := invFromNBT fresh.inventory (nbtItems data "Items") }


/-! ## Concrete example data used by witnesses and counterexamples -/

/-- A hopper facing north holding three units of item 1 in slot 0, with both
cooldowns expired. -/
def exHopperIns : Hopper :=
  { Facing := Face.north
    Powered := false
    CustomName := ""
    LastTick := 0
    TransferCooldown := 0
    CollectCooldown := 0
    invRef := 0
    inventory := [⟨1, 3, 64⟩, emptyStack, emptyStack, emptyStack, emptyStack] }

/-- An empty five-slot plain container on the faced side, nothing above. -/
def exWorldIns : TickWorld :=
  ⟨some ⟨some (List.replicate 5 emptyStack), none, none⟩, none⟩

/-- No container on either inspected side. -/
def exWorldNone : TickWorld := ⟨none, none⟩

/-- An idle hopper: empty inventory, expired cooldowns, unpowered. -/
def exHopperIdle : Hopper :=
  { Facing := Face.north
    Powered := false
    CustomName := ""
    LastTick := 0
    TransferCooldown := 0
    CollectCooldown := 0
    invRef := 0
    inventory := List.replicate 5 emptyStack }

/-- The insert example hopper with a pending transfer cooldown. -/
def exHopperCooling : Hopper := { exHopperIns with TransferCooldown := 5 }

/-- The insert example hopper, powered. -/
def exHopperPowered : Hopper := { exHopperIns with Powered := true }

/-- The insert example hopper with a custom label and a stored cooldown. -/
def exHopperNamed : Hopper :=
  { exHopperIns with CustomName := "x", TransferCooldown := 5 }

/-- An empty plain container on the faced side and a plain container above
holding five units of item 2 in slot 2. -/
def exWorldBoth : TickWorld :=
  ⟨some ⟨some (List.replicate 5 emptyStack), none, none⟩,
   some ⟨some [emptyStack, emptyStack, ⟨2, 5, 64⟩, emptyStack, emptyStack], none, none⟩⟩

/-! ## Helper lemmas about stacks and inventories -/

/-- Growing a stack down to a single unit leaves count 1. -/
theorem Stack.count_offer (s : Stack) : (s.Grow (-s.Count + 1)).count = 1 := by
  simp only [Stack.Grow, Stack.Count]
  omega

/-- Shrinking a stack by one unit decrements its count. -/
theorem Stack.count_shrink (s : Stack) : (s.Grow (-1)).count = s.count - 1 := by
  simp only [Stack.Grow]
  omega

/-- Growing a stack by one unit increments its count. -/
theorem Stack.count_grow_one (s : Stack) : (s.Grow 1).count = s.count + 1 := by
  simp only [Stack.Grow]
  omega

/-- A stack is Empty exactly when its count is zero. -/
theorem Stack.empty_iff (s : Stack) : s.Empty = true ↔ s.count = 0 := by
  simp [Stack.Empty]

theorem Inv.total_nil : Inv.total [] = 0 := rfl

theorem Inv.total_cons (s : Stack) (l : Inv) : Inv.total (s :: l) = s.count + l.total := by
  simp [Inv.total]

/-- Writing slot i trades the old count for the new one in the total. -/
theorem Inv.total_set : ∀ (inv : Inv) (i : Nat) (s t : Stack),
    inv[i]? = some s → Inv.total (inv.set i t) + s.count = Inv.total inv + t.count
  | [], i, s, t, h => by simp at h
  | a :: l, 0, s, t, h => by
    simp only [List.getElem?_cons_zero, Option.some.injEq] at h
    subst h
    simp [Inv.total_cons]
    omega
  | a :: l, i + 1, s, t, h => by
    simp only [List.getElem?_cons_succ] at h
    have ih := Inv.total_set l i s t h
    simp only [List.set_cons_succ, Inv.total_cons]
    omega

/-- The merge pass of addItem adds exactly one unit. -/
theorem Inv.addOneMerge_total : ∀ (inv : Inv) (s : Stack) (inv2 : Inv),
    Inv.addOneMerge inv s = some inv2 → Inv.total inv2 = Inv.total inv + 1
  | [], _, _, h => by simp [Inv.addOneMerge] at h
  | t :: rest, s, inv2, h => by
    simp only [Inv.addOneMerge] at h
    split at h
    · cases h
      simp only [Inv.total_cons, Stack.count_grow_one]
      omega
    · cases hrec : Inv.addOneMerge rest s with
      | none => rw [hrec] at h; simp at h
      | some r =>
        rw [hrec] at h
        simp only [Option.map_some', Option.some.injEq] at h
        subst h
        have ih := Inv.addOneMerge_total rest s r hrec
        simp only [Inv.total_cons]
        omega

/-- The placement pass of addItem adds exactly the offered count. -/
theorem Inv.addOnePlace_total : ∀ (inv : Inv) (s : Stack) (inv2 : Inv),
    Inv.addOnePlace inv s = some inv2 → Inv.total inv2 = Inv.total inv + s.count
  | [], _, _, h => by simp [Inv.addOnePlace] at h
  | t :: rest, s, inv2, h => by
    simp only [Inv.addOnePlace] at h
    split at h
    · cases h
      rename_i hemp
      rw [Stack.empty_iff] at hemp
      simp only [Inv.total_cons]
      omega
    · cases hrec : Inv.addOnePlace rest s with
      | none => rw [hrec] at h; simp at h
      | some r =>
        rw [hrec] at h
        simp only [Option.map_some', Option.some.injEq] at h
        subst h
        have ih := Inv.addOnePlace_total rest s r hrec
        simp only [Inv.total_cons]
        omega

/-- Adding one offered unit raises the total by one. -/
theorem Inv.addOne_total (inv : Inv) (s : Stack) (inv2 : Inv)
    (hs : s.count = 1) (h : Inv.addOne inv s = some inv2) :
    Inv.total inv2 = Inv.total inv + 1 := by
  unfold Inv.addOne at h
  cases hm : Inv.addOneMerge inv s with
  | some r =>
    rw [hm] at h
    cases h
    exact Inv.addOneMerge_total inv s inv2 hm
  | none =>
    rw [hm] at h
    have := Inv.addOnePlace_total inv s inv2 h
    omega

/-- A failed addItem mutates nothing: the result none carries no inventory. -/
theorem Inv.addOne_none_iff (inv : Inv) (s : Stack) :
    Inv.addOne inv s = none ↔ Inv.addOneMerge inv s = none ∧ Inv.addOnePlace inv s = none := by
  unfold Inv.addOne
  cases hm : Inv.addOneMerge inv s <;> simp

/-! ## Helper lemmas about the insert scan and extraction -/

/-- Membership in an enumFrom list locates the element in the base list. -/
theorem mem_enumFrom_getElem? {α : Type} :
    ∀ (l : List α) (n i : Nat) (x : α), (i, x) ∈ l.enumFrom n →
      n ≤ i ∧ l[i - n]? = some x
  | [], _, _, _, h => by simp at h
  | a :: l, n, i, x, h => by
    simp only [List.enumFrom_cons, List.mem_cons] at h
    cases h with
    | inl h =>
      obtain ⟨h1, h2⟩ := Prod.mk.injEq .. ▸ h
      subst h1
      subst h2
      simp
    | inr h =>
      have ih := mem_enumFrom_getElem? l (n + 1) i x h
      refine ⟨by omega, ?_⟩
      have hi : i - n = (i - (n + 1)) + 1 := by omega
      rw [hi, List.getElem?_cons_succ]
      exact ih.2

/-- Membership in an enum list locates the element in the base list. -/
theorem mem_enum_getElem? {α : Type} (l : List α) (i : Nat) (x : α)
    (h : (i, x) ∈ l.enum) : l[i]? = some x := by
  have := mem_enumFrom_getElem? l 0 i x h
  simpa using this.2

/-- Unfolding equation for the insert scan at a cons cell. -/
theorem insertLoop_cons (facing : Face) (cap : Option (Stack → Face → Bool × Nat))
    (dinv hInv : Inv) (i : Nat) (s : Stack) (rest : List (Nat × Stack)) :
    insertLoop facing cap dinv hInv ((i, s) :: rest) =
      if s.Empty then insertLoop facing cap dinv hInv rest
      else
        match cap with
        | none =>
          match Inv.addOne dinv (s.Grow (-s.Count + 1)) with
          | none => insertLoop facing cap dinv hInv rest
          | some dinv2 => (true, Inv.setItem hInv i (s.Grow (-1)), dinv2)
        | some oracle =>
          if !(oracle (s.Grow (-s.Count + 1)) facing).1 ||
              !(s.Comparable (Inv.item dinv (oracle (s.Grow (-s.Count + 1)) facing).2)) then
            insertLoop facing cap dinv hInv rest
          else
            (true, Inv.setItem hInv i (s.Grow (-1)),
              Inv.setItem dinv (oracle (s.Grow (-s.Count + 1)) facing).2
                (if !(Inv.item dinv (oracle (s.Grow (-s.Count + 1)) facing).2).Empty then
                  (Inv.item dinv (oracle (s.Grow (-s.Count + 1)) facing).2).Grow 1
                else s.Grow (-s.Count + 1))) := rfl

/-- The scan skips an empty source slot. -/
theorem insertLoop_cons_empty (facing : Face) (cap : Option (Stack → Face → Bool × Nat))
    (dinv hInv : Inv) (i : Nat) (s : Stack) (rest : List (Nat × Stack))
    (hemp : s.Empty = true) :
    insertLoop facing cap dinv hInv ((i, s) :: rest) =
      insertLoop facing cap dinv hInv rest := by
  rw [insertLoop_cons, if_pos hemp]

/-- Against a plain container, a full destination makes the scan continue. -/
theorem insertLoop_cons_basic_full (facing : Face) (dinv hInv : Inv) (i : Nat) (s : Stack)
    (rest : List (Nat × Stack)) (hemp : s.Empty = false)
    (hadd : Inv.addOne dinv (s.Grow (-s.Count + 1)) = none) :
    insertLoop facing none dinv hInv ((i, s) :: rest) =
      insertLoop facing none dinv hInv rest := by
  rw [insertLoop_cons, if_neg (by simp [hemp]), hadd]

/-- Against a plain container, a successful addItem ends the scan. -/
theorem insertLoop_cons_basic_ok (facing : Face) (dinv hInv : Inv) (i : Nat) (s : Stack)
    (rest : List (Nat × Stack)) (dinv2 : Inv) (hemp : s.Empty = false)
    (hadd : Inv.addOne dinv (s.Grow (-s.Count + 1)) = some dinv2) :
    insertLoop facing none dinv hInv ((i, s) :: rest) =
      (true, Inv.setItem hInv i (s.Grow (-1)), dinv2) := by
  rw [insertLoop_cons, if_neg (by simp [hemp]), hadd]

/-- Against a HopperInsertable, a rejected or incompatible offer makes the scan
continue. -/
theorem insertLoop_cons_oracle_rej (facing : Face) (oracle : Stack → Face → Bool × Nat)
    (dinv hInv : Inv) (i : Nat) (s : Stack) (rest : List (Nat × Stack))
    (hemp : s.Empty = false)
    (hrej : (!(oracle (s.Grow (-s.Count + 1)) facing).1 ||
      !(s.Comparable (Inv.item dinv (oracle (s.Grow (-s.Count + 1)) facing).2))) = true) :
    insertLoop facing (some oracle) dinv hInv ((i, s) :: rest) =
      insertLoop facing (some oracle) dinv hInv rest := by
  rw [insertLoop_cons, if_neg (by simp [hemp])]
  exact if_pos hrej

/-- Against a HopperInsertable, an accepted compatible offer ends the scan. -/
theorem insertLoop_cons_oracle_ok (facing : Face) (oracle : Stack → Face → Bool × Nat)
    (dinv hInv : Inv) (i : Nat) (s : Stack) (rest : List (Nat × Stack))
    (hemp : s.Empty = false)
    (hacc : (!(oracle (s.Grow (-s.Count + 1)) facing).1 ||
      !(s.Comparable (Inv.item dinv (oracle (s.Grow (-s.Count + 1)) facing).2))) = false) :
    insertLoop facing (some oracle) dinv hInv ((i, s) :: rest) =
      (true, Inv.setItem hInv i (s.Grow (-1)),
        Inv.setItem dinv (oracle (s.Grow (-s.Count + 1)) facing).2
          (if !(Inv.item dinv (oracle (s.Grow (-s.Count + 1)) facing).2).Empty then
            (Inv.item dinv (oracle (s.Grow (-s.Count + 1)) facing).2).Grow 1
          else s.Grow (-s.Count + 1))) := by
  rw [insertLoop_cons, if_neg (by simp [hemp])]
  exact if_neg (by simp only [hacc]; exact Bool.false_ne_true)

/-- A failing insert scan leaves both inventories exactly as given. -/
theorem insertLoop_false (facing : Face) (cap : Option (Stack → Face → Bool × Nat))
    (dinv hInv : Inv) :
    ∀ l : List (Nat × Stack), (insertLoop facing cap dinv hInv l).1 = false →
      (insertLoop facing cap dinv hInv l).2.1 = hInv ∧
      (insertLoop facing cap dinv hInv l).2.2 = dinv
  | [], _ => by simp [insertLoop]
  | (i, s) :: rest, h => by
    by_cases hemp : s.Empty = true
    · rw [insertLoop_cons_empty facing cap dinv hInv i s rest hemp] at h ⊢
      exact insertLoop_false facing cap dinv hInv rest h
    · rw [Bool.not_eq_true] at hemp
      cases cap with
      | none =>
        cases hadd : Inv.addOne dinv (s.Grow (-s.Count + 1)) with
        | none =>
          rw [insertLoop_cons_basic_full facing dinv hInv i s rest hemp hadd] at h ⊢
          exact insertLoop_false facing none dinv hInv rest h
        | some dinv2 =>
          rw [insertLoop_cons_basic_ok facing dinv hInv i s rest dinv2 hemp hadd] at h
          simp at h
      | some oracle =>
        cases hdec : (!(oracle (s.Grow (-s.Count + 1)) facing).1 ||
            !(s.Comparable (Inv.item dinv (oracle (s.Grow (-s.Count + 1)) facing).2))) with
        | true =>
          rw [insertLoop_cons_oracle_rej facing oracle dinv hInv i s rest hemp hdec] at h ⊢
          exact insertLoop_false facing (some oracle) dinv hInv rest h
        | false =>
          rw [insertLoop_cons_oracle_ok facing oracle dinv hInv i s rest hemp hdec] at h
          simp at h

/-- A successful insert scan touches exactly one source slot, decrementing it
by one unit, and raises the destination total by exactly one unit. -/
theorem insertLoop_true (facing : Face) (cap : Option (Stack → Face → Bool × Nat))
    (dinv hInv : Inv)
    (hcap : ∀ o, cap = some o → ∀ s f, (o s f).1 = true → (o s f).2 < dinv.length) :
    ∀ l : List (Nat × Stack), (insertLoop facing cap dinv hInv l).1 = true →
      ∃ i s, (i, s) ∈ l ∧ s.Empty = false ∧
        (insertLoop facing cap dinv hInv l).2.1 = Inv.setItem hInv i (s.Grow (-1)) ∧
        Inv.total (insertLoop facing cap dinv hInv l).2.2 = Inv.total dinv + 1
  | [], h => by simp [insertLoop] at h
  | (i, s) :: rest, h => by
    by_cases hemp : s.Empty = true
    · rw [insertLoop_cons_empty facing cap dinv hInv i s rest hemp] at h ⊢
      obtain ⟨i2, s2, hm, h1, h2, h3⟩ := insertLoop_true facing cap dinv hInv hcap rest h
      exact ⟨i2, s2, List.mem_cons_of_mem _ hm, h1, h2, h3⟩
    · rw [Bool.not_eq_true] at hemp
      cases cap with
      | none =>
        cases hadd : Inv.addOne dinv (s.Grow (-s.Count + 1)) with
        | none =>
          rw [insertLoop_cons_basic_full facing dinv hInv i s rest hemp hadd] at h ⊢
          obtain ⟨i2, s2, hm, h1, h2, h3⟩ := insertLoop_true facing none dinv hInv hcap rest h
          exact ⟨i2, s2, List.mem_cons_of_mem _ hm, h1, h2, h3⟩
        | some dinv2 =>
          rw [insertLoop_cons_basic_ok facing dinv hInv i s rest dinv2 hemp hadd] at h ⊢
          refine ⟨i, s, List.mem_cons_self _ _, hemp, rfl, ?_⟩
          exact Inv.addOne_total dinv _ dinv2 (Stack.count_offer s) hadd
      | some oracle =>
        cases hdec : (!(oracle (s.Grow (-s.Count + 1)) facing).1 ||
            !(s.Comparable (Inv.item dinv (oracle (s.Grow (-s.Count + 1)) facing).2))) with
        | true =>
          rw [insertLoop_cons_oracle_rej facing oracle dinv hInv i s rest hemp hdec] at h ⊢
          obtain ⟨i2, s2, hm, h1, h2, h3⟩ :=
            insertLoop_true facing (some oracle) dinv hInv hcap rest h
          exact ⟨i2, s2, List.mem_cons_of_mem _ hm, h1, h2, h3⟩
        | false =>
          rw [insertLoop_cons_oracle_ok facing oracle dinv hInv i s rest hemp hdec] at h ⊢
          dsimp only
          refine ⟨i, s, List.mem_cons_self _ _, hemp, rfl, ?_⟩
          have hres : (oracle (s.Grow (-s.Count + 1)) facing).1 = true := by
            rcases Bool.or_eq_false_iff.mp hdec with ⟨h1, _⟩
            simpa using h1
          have hlt := hcap oracle rfl (s.Grow (-s.Count + 1)) facing hres
          have hget : dinv[(oracle (s.Grow (-s.Count + 1)) facing).2]? =
              some (Inv.item dinv (oracle (s.Grow (-s.Count + 1)) facing).2) := by
            unfold Inv.item
            rw [List.getElem?_eq_getElem hlt]
            rfl
          have hset := Inv.total_set dinv (oracle (s.Grow (-s.Count + 1)) facing).2
            (Inv.item dinv (oracle (s.Grow (-s.Count + 1)) facing).2)
            (if !(Inv.item dinv (oracle (s.Grow (-s.Count + 1)) facing).2).Empty then
              (Inv.item dinv (oracle (s.Grow (-s.Count + 1)) facing).2).Grow 1
            else s.Grow (-s.Count + 1)) hget
          unfold Inv.setItem
          by_cases hit : (Inv.item dinv (oracle (s.Grow (-s.Count + 1)) facing).2).Empty = true
          · rw [if_neg (by simp [hit])] at hset ⊢
            rw [Stack.empty_iff] at hit
            rw [Stack.count_offer] at hset
            omega
          · rw [if_pos (by simp [hit])] at hset ⊢
            rw [Stack.count_grow_one] at hset
            omega

/-- A stack is not Empty exactly when its count is nonzero. -/
theorem Stack.not_empty_iff (s : Stack) : s.Empty = false ↔ s.count ≠ 0 := by
  simp [Stack.Empty]

/-- The first non-empty slot, when one is reported, is in the list. -/
theorem firstNonEmpty_mem : ∀ l : List (Nat × Stack),
    (firstNonEmpty l).1.Empty = false →
    ((firstNonEmpty l).2, (firstNonEmpty l).1) ∈ l
  | [], h => by simp [firstNonEmpty, emptyStack, Stack.Empty] at h
  | (i, s) :: rest, h => by
    by_cases hemp : s.Empty = true
    · rw [show firstNonEmpty ((i, s) :: rest) = firstNonEmpty rest from by
        simp [firstNonEmpty, hemp]] at h ⊢
      exact List.mem_cons_of_mem _ (firstNonEmpty_mem rest h)
    · rw [show firstNonEmpty ((i, s) :: rest) = (s, i) from by
        simp [firstNonEmpty, hemp]]
      exact List.mem_cons_self _ _

/-! ## The frozen claims -/

/-- C5: whenever insertItem or extractItem returns false, neither the hopper
inventory nor either adjacent container inventory is mutated by the call. -/
theorem hopper_failed_transfer_no_mutation (h : Hopper) (w : TickWorld) :
    ((h.insertItem w).ok = false →
      (h.insertItem w).hInv = h.inventory ∧
      (h.insertItem w).world.destInv = w.destInv ∧
      (h.insertItem w).world.aboveInv = w.aboveInv) ∧
    ((h.extractItem w).ok = false →
      (h.extractItem w).hInv = h.inventory ∧
      (h.extractItem w).world.destInv = w.destInv ∧
      (h.extractItem w).world.aboveInv = w.aboveInv) := by
  constructor
  · intro hok
    unfold Hopper.insertItem at hok ⊢
    cases hd : w.dest with
    | none => rw [hd] at hok; exact ⟨rfl, rfl, rfl⟩
    | some dest =>
      rw [hd] at hok
      dsimp only at hok ⊢
      cases hi : dest.inv with
      | none => rw [hi] at hok; exact ⟨rfl, rfl, rfl⟩
      | some dinv =>
        rw [hi] at hok
        dsimp only at hok ⊢
        have hf := insertLoop_false h.Facing dest.insertCap dinv h.inventory
          h.inventory.enum hok
        refine ⟨hf.1, ?_, ?_⟩
        · simp [TickWorld.destInv, hd, hi, hf.2]
        · simp only [TickWorld.aboveInv]
  · intro hok
    unfold Hopper.extractItem at hok ⊢
    cases ha : w.above with
    | none => rw [ha] at hok; exact ⟨rfl, rfl, rfl⟩
    | some origin =>
      rw [ha] at hok
      dsimp only at hok ⊢
      cases hi : origin.inv with
      | none => rw [hi] at hok; exact ⟨rfl, rfl, rfl⟩
      | some oinv =>
        rw [hi] at hok
        dsimp only at hok ⊢
        cases he : origin.extractCap with
        | none =>
          rw [he] at hok
          dsimp only at hok ⊢
          by_cases hemp : (firstNonEmpty oinv.enum).1.Empty = true
          · rw [if_pos hemp] at hok ⊢
            exact ⟨rfl, rfl, rfl⟩
          · rw [if_neg hemp] at hok ⊢
            cases hadd : Inv.addOne h.inventory
                ((firstNonEmpty oinv.enum).1.Grow (-(firstNonEmpty oinv.enum).1.Count + 1)) with
            | none => exact ⟨rfl, rfl, rfl⟩
            | some hInv2 => rw [hadd] at hok; exact Bool.noConfusion hok
        | some p =>
          rw [he] at hok
          dsimp only at hok ⊢
          by_cases hemp : p.1.Empty = true
          · rw [if_pos hemp] at hok ⊢
            exact ⟨rfl, rfl, rfl⟩
          · rw [if_neg hemp] at hok ⊢
            cases hadd : Inv.addOne h.inventory (p.1.Grow (-p.1.Count + 1)) with
            | none => exact ⟨rfl, rfl, rfl⟩
            | some hInv2 => rw [hadd] at hok; exact Bool.noConfusion hok

/-- C2: a transfer helper that returns true moves exactly one item unit —
exactly one source slot is decremented by one unit, the destination gains one
unit, and the total item count across source and destination is conserved.
The two hypotheses state the documented contracts of the optional capability
interfaces: an accepted insertion names a slot of the destination, and an
extraction nominates a slot together with the stack actually stored there. -/
theorem hopper_transfer_moves_one_unit (h : Hopper) (w : TickWorld)
    (hcap : ∀ c o, w.dest = some c → c.insertCap = some o →
      ∀ s f, (o s f).1 = true → (o s f).2 < (c.inv.getD []).length)
    (hext : ∀ c p, w.above = some c → c.extractCap = some p →
      (c.inv.getD [])[p.2]? = some p.1) :
    ((h.insertItem w).ok = true →
      ∃ i s d, h.inventory[i]? = some s ∧ s.Empty = false ∧
        (h.insertItem w).hInv = Inv.setItem h.inventory i (s.Grow (-1)) ∧
        w.destInv = some d ∧
        ∃ d2, (h.insertItem w).world.destInv = some d2 ∧
          Inv.total d2 = Inv.total d + 1 ∧
          Inv.total h.inventory = Inv.total (h.insertItem w).hInv + 1 ∧
          Inv.total (h.insertItem w).hInv + Inv.total d2 =
            Inv.total h.inventory + Inv.total d) ∧
    ((h.extractItem w).ok = true →
      ∃ j s2 a, w.aboveInv = some a ∧ a[j]? = some s2 ∧ s2.Empty = false ∧
        (h.extractItem w).world.aboveInv = some (Inv.setItem a j (s2.Grow (-1))) ∧
        Inv.total (h.extractItem w).hInv = Inv.total h.inventory + 1 ∧
        Inv.total a = Inv.total (Inv.setItem a j (s2.Grow (-1))) + 1 ∧
        Inv.total (h.extractItem w).hInv + Inv.total (Inv.setItem a j (s2.Grow (-1)))
          = Inv.total h.inventory + Inv.total a) := by
  constructor
  · intro hok
    unfold Hopper.insertItem at hok ⊢
    cases hd : w.dest with
    | none => rw [hd] at hok; exact Bool.noConfusion hok
    | some dest =>
      rw [hd] at hok
      dsimp only at hok ⊢
      cases hi : dest.inv with
      | none => rw [hi] at hok; exact Bool.noConfusion hok
      | some dinv =>
        rw [hi] at hok
        dsimp only at hok ⊢
        have hcap2 : ∀ o, dest.insertCap = some o →
            ∀ s f, (o s f).1 = true → (o s f).2 < dinv.length := by
          intro o ho s f hf
          have hlen := hcap dest o hd ho s f hf
          rw [hi] at hlen
          simpa using hlen
        obtain ⟨i, s, hm, hne, hset, htot⟩ :=
          insertLoop_true h.Facing dest.insertCap dinv h.inventory hcap2 h.inventory.enum hok
        have hgi : h.inventory[i]? = some s := mem_enum_getElem? h.inventory i s hm
        have hcnt : s.count ≠ 0 := (Stack.not_empty_iff s).mp hne
        have hown := Inv.total_set h.inventory i s (s.Grow (-1)) hgi
        rw [Stack.count_shrink] at hown
        refine ⟨i, s, dinv, hgi, hne, hset, by simp [TickWorld.destInv, hd, hi], ?_⟩
        refine ⟨(insertLoop h.Facing dest.insertCap dinv h.inventory h.inventory.enum).2.2,
          by simp [TickWorld.destInv], htot, ?_, ?_⟩
        · rw [hset]
          unfold Inv.setItem
          omega
        · rw [hset]
          unfold Inv.setItem
          omega
  · intro hok
    unfold Hopper.extractItem at hok ⊢
    cases ha : w.above with
    | none => rw [ha] at hok; exact Bool.noConfusion hok
    | some origin =>
      rw [ha] at hok
      dsimp only at hok ⊢
      cases hi : origin.inv with
      | none => rw [hi] at hok; exact Bool.noConfusion hok
      | some oinv =>
        rw [hi] at hok
        dsimp only at hok ⊢
        cases he : origin.extractCap with
        | none =>
          rw [he] at hok
          dsimp only at hok ⊢
          by_cases hemp : (firstNonEmpty oinv.enum).1.Empty = true
          · rw [if_pos hemp] at hok
            exact Bool.noConfusion hok
          · rw [if_neg hemp] at hok ⊢
            cases hadd : Inv.addOne h.inventory
                ((firstNonEmpty oinv.enum).1.Grow
                  (-(firstNonEmpty oinv.enum).1.Count + 1)) with
            | none => rw [hadd] at hok; exact Bool.noConfusion hok
            | some hInv2 =>
              dsimp only
              have hempf : (firstNonEmpty oinv.enum).1.Empty = false := by
                simpa using hemp
              have hfm := firstNonEmpty_mem oinv.enum hempf
              have hgj : oinv[(firstNonEmpty oinv.enum).2]? =
                  some (firstNonEmpty oinv.enum).1 := mem_enum_getElem? oinv _ _ hfm
              have hcnt : (firstNonEmpty oinv.enum).1.count ≠ 0 :=
                (Stack.not_empty_iff _).mp hempf
              have hup := Inv.addOne_total h.inventory _ hInv2 (Stack.count_offer _) hadd
              have hdown := Inv.total_set oinv (firstNonEmpty oinv.enum).2
                (firstNonEmpty oinv.enum).1 ((firstNonEmpty oinv.enum).1.Grow (-1)) hgj
              rw [Stack.count_shrink] at hdown
              refine ⟨(firstNonEmpty oinv.enum).2, (firstNonEmpty oinv.enum).1, oinv,
                by simp [TickWorld.aboveInv, ha, hi], hgj, hempf,
                by simp [TickWorld.aboveInv], hup, ?_, ?_⟩
              · unfold Inv.setItem
                omega
              · unfold Inv.setItem
                omega
        | some p =>
          rw [he] at hok
          dsimp only at hok ⊢
          by_cases hemp : p.1.Empty = true
          · rw [if_pos hemp] at hok
            exact Bool.noConfusion hok
          · rw [if_neg hemp] at hok ⊢
            cases hadd : Inv.addOne h.inventory (p.1.Grow (-p.1.Count + 1)) with
            | none => rw [hadd] at hok; exact Bool.noConfusion hok
            | some hInv2 =>
              dsimp only
              have hempf : p.1.Empty = false := by simpa using hemp
              have hgj : oinv[p.2]? = some p.1 := by
                have := hext origin p ha he
                rw [hi] at this
                simpa using this
              have hcnt : p.1.count ≠ 0 := (Stack.not_empty_iff _).mp hempf
              have hup := Inv.addOne_total h.inventory _ hInv2 (Stack.count_offer _) hadd
              have hdown := Inv.total_set oinv p.2 p.1 (p.1.Grow (-1)) hgj
              rw [Stack.count_shrink] at hdown
              refine ⟨p.2, p.1, oinv,
                by simp [TickWorld.aboveInv, ha, hi], hgj, hempf,
                by simp [TickWorld.aboveInv], hup, ?_, ?_⟩
              · unfold Inv.setItem
                omega
              · unfold Inv.setItem
                omega

/-- The transfer attempt reports its two outcomes verbatim. -/
theorem tickAttempt_outcomes (h : Hopper) (w : TickWorld) :
    (h.tickAttempt w).inserted = (h.insertItem w).ok ∧
    (h.tickAttempt w).extracted =
      (Hopper.extractItem { h with inventory := (h.insertItem w).hInv }
        (h.insertItem w).world).ok ∧
    (h.tickAttempt w).attempted = true ∧
    (h.tickAttempt w).hopper.LastTick = h.LastTick := by
  unfold Hopper.tickAttempt
  dsimp only
  split
  · exact ⟨rfl, rfl, rfl, rfl⟩
  · exact ⟨rfl, rfl, rfl, rfl⟩

/-- A successful transfer attempt publishes a snapshot with TransferCooldown 8
and the incoming CollectCooldown and LastTick. -/
theorem tickAttempt_success (h : Hopper) (w : TickWorld)
    (hs : (h.tickAttempt w).inserted = true ∨ (h.tickAttempt w).extracted = true) :
    ∃ hp, (h.tickAttempt w).published = some hp ∧ hp.TransferCooldown = 8 ∧
      hp.CollectCooldown = h.CollectCooldown ∧ hp.LastTick = h.LastTick := by
  unfold Hopper.tickAttempt at hs ⊢
  dsimp only at hs ⊢
  by_cases hc : ((h.insertItem w).ok ||
      (Hopper.extractItem { h with inventory := (h.insertItem w).hInv }
        (h.insertItem w).world).ok) = true
  · rw [if_pos hc]
    exact ⟨_, rfl, rfl, rfl, rfl⟩
  · rw [if_neg hc] at hs
    dsimp only at hs
    rcases hs with hs | hs <;> simp [hs] at hc

/-- A transfer attempt publishes nothing exactly when both transfers failed. -/
theorem tickAttempt_publish_none_iff (h : Hopper) (w : TickWorld) :
    (h.tickAttempt w).published = none ↔
      (h.tickAttempt w).inserted = false ∧ (h.tickAttempt w).extracted = false := by
  unfold Hopper.tickAttempt
  dsimp only
  by_cases hc : ((h.insertItem w).ok ||
      (Hopper.extractItem { h with inventory := (h.insertItem w).hInv }
        (h.insertItem w).world).ok) = true
  · rw [if_pos hc]
    dsimp only
    constructor
    · intro hn
      exact Option.noConfusion hn
    · intro hf
      rw [hf.1, hf.2] at hc
      exact Bool.noConfusion hc
  · rw [if_neg hc]
    dsimp only
    simp only [Bool.or_eq_true, not_or, Bool.not_eq_true] at hc
    exact ⟨fun _ => ⟨hc.1, hc.2⟩, fun _ => rfl⟩

/-- C3: every tick decrements both cooldowns and records lastTick in the local
snapshot; when either counter is still nonnegative after the decrement, the
decremented snapshot is published and the tick ends with no transfer
attempt. -/
theorem hopper_tick_cooldown (h : Hopper) (t : Int) (w : TickWorld) :
    (h.Tick t w).hopper.LastTick = t ∧
    (h.TransferCooldown - 1 ≥ 0 ∨ h.CollectCooldown - 1 ≥ 0 →
      (h.Tick t w).published =
        some { h with TransferCooldown := h.TransferCooldown - 1,
                      CollectCooldown := h.CollectCooldown - 1,
                      LastTick := t } ∧
      (h.Tick t w).attempted = false) := by
  unfold Hopper.Tick
  dsimp only
  by_cases hcool : h.TransferCooldown - 1 ≥ 0 ∨ h.CollectCooldown - 1 ≥ 0
  · rw [if_pos hcool]
    exact ⟨rfl, fun _ => ⟨rfl, rfl⟩⟩
  · rw [if_neg hcool]
    by_cases hpow : h.Powered = true
    · rw [if_pos hpow]
      exact ⟨rfl, fun hc => absurd hc hcool⟩
    · rw [if_neg hpow]
      exact ⟨(tickAttempt_outcomes _ w).2.2.2, fun hc => absurd hc hcool⟩

/-- C1 (amended): after a tick in which insertItem or extractItem succeeded,
the published snapshot has TransferCooldown exactly 8, while CollectCooldown
is 0 (clamped earlier in the tick, not reset to 8). -/
theorem hopper_success_resets_cooldowns (h : Hopper) (t : Int) (w : TickWorld)
    (hs : (h.Tick t w).inserted = true ∨ (h.Tick t w).extracted = true) :
    ∃ hp, (h.Tick t w).published = some hp ∧ hp.TransferCooldown = 8 ∧
      hp.CollectCooldown = 0 ∧ hp.LastTick = t := by
  unfold Hopper.Tick at hs ⊢
  dsimp only at hs ⊢
  by_cases hcool : h.TransferCooldown - 1 ≥ 0 ∨ h.CollectCooldown - 1 ≥ 0
  · rw [if_pos hcool] at hs
    dsimp only at hs
    rcases hs with hs | hs <;> exact Bool.noConfusion hs
  · rw [if_neg hcool] at hs ⊢
    by_cases hpow : h.Powered = true
    · rw [if_pos hpow] at hs
      dsimp only at hs
      rcases hs with hs | hs <;> exact Bool.noConfusion hs
    · rw [if_neg hpow] at hs ⊢
      exact tickAttempt_success _ w hs

/-- C1 counterexample: a tick with a successful insertion publishes a snapshot
whose CollectCooldown is 0, not 8. -/
theorem hopper_collect_cooldown_not_reset_cex :
    (exHopperIns.Tick 1 exWorldIns).inserted = true ∧
    (exHopperIns.Tick 1 exWorldIns).published.map Hopper.CollectCooldown = some 0 ∧
    (exHopperIns.Tick 1 exWorldIns).published.map Hopper.CollectCooldown ≠ some 8 := by
  decide

/-- While powered, one world-level tick step preserves the powered flag and
the inventory contents. -/
theorem tickStep_powered (s : Hopper × TickWorld) (t : Int) (hp : s.1.Powered = true) :
    (tickStep s t).1.Powered = true ∧ (tickStep s t).1.inventory = s.1.inventory := by
  unfold tickStep Hopper.Tick
  dsimp only
  by_cases hcool : s.1.TransferCooldown - 1 ≥ 0 ∨ s.1.CollectCooldown - 1 ≥ 0
  · rw [if_pos hcool]
    exact ⟨hp, rfl⟩
  · rw [if_neg hcool]
    rw [if_pos hp]
    exact ⟨hp, rfl⟩

/-- While powered, any sequence of world-level ticks preserves the powered
flag and the inventory contents. -/
theorem runTicks_powered : ∀ (ts : List Int) (h : Hopper) (w : TickWorld),
    h.Powered = true →
    (runTicks h w ts).1.Powered = true ∧ (runTicks h w ts).1.inventory = h.inventory
  | [], h, w, hp => ⟨hp, rfl⟩
  | t :: ts, h, w, hp => by
    have h1 := tickStep_powered (h, w) t hp
    have ih := runTicks_powered ts (tickStep (h, w) t).1 (tickStep (h, w) t).2 h1.1
    unfold runTicks at ih ⊢
    rw [List.foldl_cons]
    exact ⟨ih.1, by rw [ih.2, h1.2]⟩

/-- C4: a powered hopper never reaches the transfer attempt on a tick, and
over any sequence of ticks with powered true throughout, the inventory
contents never change. -/
theorem hopper_powered_no_transfer (h : Hopper) (w : TickWorld) (t : Int) (ts : List Int)
    (hp : h.Powered = true) :
    (h.Tick t w).attempted = false ∧ (runTicks h w ts).1.inventory = h.inventory := by
  constructor
  · unfold Hopper.Tick
    dsimp only
    by_cases hcool : h.TransferCooldown - 1 ≥ 0 ∨ h.CollectCooldown - 1 ≥ 0
    · rw [if_pos hcool]
    · rw [if_neg hcool]
      rw [if_pos hp]
  · exact (runTicks_powered ts h w hp).2

/-- C6 (amended): every tick records lastTick in its local snapshot, but the
snapshot is published exactly when a cooldown is still pending, the hopper is
powered, or a transfer succeeded; when cooldowns are expired, the hopper is
unpowered and both transfer attempts fail, nothing is republished. -/
theorem hopper_tick_publish_iff (h : Hopper) (t : Int) (w : TickWorld) :
    (h.Tick t w).hopper.LastTick = t ∧
    ((h.Tick t w).published = none ↔
      h.TransferCooldown - 1 < 0 ∧ h.CollectCooldown - 1 < 0 ∧ h.Powered = false ∧
      (h.Tick t w).inserted = false ∧ (h.Tick t w).extracted = false) := by
  unfold Hopper.Tick
  dsimp only
  by_cases hcool : h.TransferCooldown - 1 ≥ 0 ∨ h.CollectCooldown - 1 ≥ 0
  · rw [if_pos hcool]
    refine ⟨rfl, fun hn => Option.noConfusion hn, fun hc => ?_⟩
    omega
  · rw [if_neg hcool]
    by_cases hpow : h.Powered = true
    · rw [if_pos hpow]
      refine ⟨rfl, fun hn => Option.noConfusion hn, fun hc => ?_⟩
      rw [hpow] at hc
      exact Bool.noConfusion hc.2.2.1
    · rw [if_neg hpow]
      refine ⟨(tickAttempt_outcomes _ w).2.2.2, ?_, ?_⟩
      · intro hn
        have hf := (tickAttempt_publish_none_iff _ w).mp hn
        exact ⟨by omega, by omega, by simpa using hpow, hf.1, hf.2⟩
      · intro hf
        exact (tickAttempt_publish_none_iff _ w).mpr ⟨hf.2.2.2.1, hf.2.2.2.2⟩

/-- C6 counterexample: with cooldowns expired, unpowered, and no adjacent
containers, the tick publishes nothing back to the world store. -/
theorem hopper_idle_tick_unpublished_cex :
    (exHopperIdle.Tick 1 exWorldNone).published = none ∧
    exHopperIdle.Powered = false ∧
    exHopperIdle.TransferCooldown = 0 ∧ exHopperIdle.CollectCooldown = 0 := by
  decide

/-- C10: a successful use-on-block placement faces the new hopper opposite the
clicked face, except that clicking the downward face leaves it facing down. -/
theorem hopper_use_on_block_facing (h : Hopper) (face : Face) (used : Bool) (ref : Nat)
    (hu : used = true) :
    ∃ hp, h.UseOnBlock face used ref = some hp ∧
      (face = Face.down → hp.Facing = Face.down) ∧
      (face ≠ Face.down → hp.Facing = face.Opposite) := by
  subst hu
  unfold Hopper.UseOnBlock
  rw [if_neg (by simp)]
  dsimp only
  by_cases hf : face = Face.down
  · subst hf
    rw [if_neg (by simp)]
    exact ⟨_, rfl, fun _ => rfl, fun hne => absurd rfl hne⟩
  · rw [if_pos (fun hdf => hf hdf.symm)]
    exact ⟨_, rfl, fun hd => absurd hd hf, fun _ => rfl⟩

/-! ## Persistence -/

/-- Writing at the length of the prefix replaces the head of the suffix. -/
theorem set_append_cons {α : Type} : ∀ (pre : List α) (b : α) (rest : List α) (s : α),
    (pre ++ b :: rest).set pre.length s = pre ++ s :: rest
  | [], _, _, _ => rfl
  | a :: pre, b, rest, s => by
    simp only [List.cons_append, List.length_cons, List.set_cons_succ]
    rw [set_append_cons pre b rest s]

/-- Replaying the enumerated contents of a list over any equally long base
reproduces the list. -/
theorem replay_enumFrom : ∀ (inv pre base : Inv), base.length = inv.length →
    List.foldl (fun acc p => Inv.setItem acc p.1 p.2) (pre ++ base)
      (inv.enumFrom pre.length) = pre ++ inv
  | [], pre, base, hlen => by
    have hb : base = [] := List.eq_nil_of_length_eq_zero hlen
    subst hb
    simp
  | s :: inv, pre, base, hlen => by
    cases base with
    | nil => simp at hlen
    | cons b base =>
      simp only [List.enumFrom_cons, List.foldl_cons]
      have hset : Inv.setItem (pre ++ b :: base) pre.length s = pre ++ s :: base :=
        set_append_cons pre b base s
      rw [hset]
      have hsplit : pre ++ s :: base = (pre ++ [s]) ++ base := by simp
      have hlen2 : base.length = inv.length := by simpa using hlen
      have hfrom : pre.length + 1 = (pre ++ [s]).length := by simp
      rw [hsplit, hfrom, replay_enumFrom inv (pre ++ [s]) base hlen2]
      simp

/-- Replaying an encoded five-slot inventory into a fresh five-slot container
reproduces it. -/
theorem invFromNBT_invToNBT (inv : Inv) (hlen : inv.length = 5) :
    invFromNBT (List.replicate 5 emptyStack) (invToNBT inv) = inv := by
  unfold invFromNBT invToNBT
  have h0 : List.enum inv = inv.enumFrom (List.length ([] : Inv)) := rfl
  rw [h0]
  have := replay_enumFrom inv [] (List.replicate 5 emptyStack) (by simp [hlen])
  simpa using this

/-- Go int32 conversion is idempotent. -/
theorem toInt32_idem (n : Int) : toInt32 (toInt32 n) = toInt32 n := by
  unfold toInt32
  omega

/-- The encoded field set always carries the Items entry. -/
theorem lookup_encode_items (h : Hopper) :
    List.lookup "Items" h.EncodeNBT = some (NbtValue.items (invToNBT h.inventory)) := by
  unfold Hopper.EncodeNBT
  by_cases hc : h.CustomName = ""
  · rw [if_neg (by simp [hc])]
    simp [List.lookup]
  · rw [if_pos hc]
    simp [List.lookup]

/-- The encoded field set always carries the TransferCooldown entry as an
int32. -/
theorem lookup_encode_cooldown (h : Hopper) :
    List.lookup "TransferCooldown" h.EncodeNBT =
      some (NbtValue.int (toInt32 h.TransferCooldown)) := by
  unfold Hopper.EncodeNBT
  by_cases hc : h.CustomName = ""
  · rw [if_neg (by simp [hc])]
    simp [List.lookup]
  · rw [if_pos hc]
    simp [List.lookup]

/-- The encoded field set carries CustomName exactly when the label is
non-empty. -/
theorem lookup_encode_customname (h : Hopper) :
    List.lookup "CustomName" h.EncodeNBT =
      if h.CustomName = "" then none else some (NbtValue.str h.CustomName) := by
  unfold Hopper.EncodeNBT
  by_cases hc : h.CustomName = ""
  · rw [if_neg (by simp [hc]), if_pos hc]
    simp [List.lookup]
  · rw [if_pos hc, if_neg hc]
    simp [List.lookup]

/-- Decoding an encoded field set restores the label, the int32 cooldown, and
the replayed inventory contents. -/
theorem decode_encode_fields (h h2 : Hopper) (ref : Nat) :
    (h2.DecodeNBT h.EncodeNBT ref).CustomName = h.CustomName ∧
    (h2.DecodeNBT h.EncodeNBT ref).TransferCooldown = toInt32 h.TransferCooldown ∧
    (h2.DecodeNBT h.EncodeNBT ref).inventory =
      invFromNBT (List.replicate 5 emptyStack) (invToNBT h.inventory) := by
  refine ⟨?_, ?_, ?_⟩
  · show nbtString h.EncodeNBT "CustomName" = h.CustomName
    unfold nbtString
    rw [lookup_encode_customname]
    by_cases hc : h.CustomName = ""
    · rw [if_pos hc, hc]
    · rw [if_neg hc]
  · show nbtInt32 h.EncodeNBT "TransferCooldown" = toInt32 h.TransferCooldown
    unfold nbtInt32
    rw [lookup_encode_cooldown]
    exact toInt32_idem h.TransferCooldown
  · show invFromNBT (List.replicate 5 emptyStack) (nbtItems h.EncodeNBT "Items") =
      invFromNBT (List.replicate 5 emptyStack) (invToNBT h.inventory)
    unfold nbtItems
    rw [lookup_encode_items]

/-- C7: decoding a persisted field set and re-encoding reproduces the original
TransferCooldown, label, and inventory fields exactly, for an empty or a
non-empty label alike, and the CustomName field is emitted exactly when the
label is non-empty. -/
theorem hopper_nbt_roundtrip (h h2 : Hopper) (ref : Nat) (hlen : h.inventory.length = 5) :
    (h2.DecodeNBT h.EncodeNBT ref).inventory = h.inventory ∧
    Hopper.EncodeNBT (h2.DecodeNBT h.EncodeNBT ref) = h.EncodeNBT ∧
    List.lookup "CustomName" h.EncodeNBT =
      (if h.CustomName = "" then none else some (NbtValue.str h.CustomName)) := by
  obtain ⟨hname, hcool, hinv⟩ := decode_encode_fields h h2 ref
  rw [invFromNBT_invToNBT h.inventory hlen] at hinv
  refine ⟨hinv, ?_, lookup_encode_customname h⟩
  generalize hgen : h2.DecodeNBT h.EncodeNBT ref = d
  rw [hgen] at hname hcool hinv
  unfold Hopper.EncodeNBT
  dsimp only
  rw [hname, hcool, hinv, toInt32_idem]

/-- C9: CollectCooldown and LastTick are not persisted; decoding the encoded
field set of any hopper yields counters 0 regardless of their values before
encoding. -/
theorem hopper_decode_drops_collect_and_lasttick (h : Hopper) (ref : Nat) :
    (h.DecodeNBT h.EncodeNBT ref).CollectCooldown = 0 ∧
    (h.DecodeNBT h.EncodeNBT ref).LastTick = 0 :=
  ⟨rfl, rfl⟩

/-- C8 (amended): DecodeNBT preserves the receiver facing and powered and
applies the decoded label and cooldown, but it does not keep the inventory
reference stable: the decoded hopper owns the freshly allocated inventory of
NewHopper, not the receiver inventory. -/
theorem hopper_decode_fresh_inventory (h : Hopper) (data : NbtMap) (ref : Nat) :
    (h.DecodeNBT data ref).Facing = h.Facing ∧
    (h.DecodeNBT data ref).Powered = h.Powered ∧
    (h.DecodeNBT data ref).CustomName = nbtString data "CustomName" ∧
    (h.DecodeNBT data ref).TransferCooldown = nbtInt32 data "TransferCooldown" ∧
    (h.DecodeNBT data ref).invRef = ref :=
  ⟨rfl, rfl, rfl, rfl, rfl⟩

/-- C8 counterexample: decoding with a freshly allocated inventory yields a
hopper whose inventory reference differs from the receiver one, so the
reference is not stable across persistence. -/
theorem hopper_decode_replaces_inventory_cex :
    (exHopperIns.DecodeNBT exHopperIns.EncodeNBT 1).invRef = 1 ∧
    exHopperIns.invRef = 0 ∧
    (exHopperIns.DecodeNBT exHopperIns.EncodeNBT 1).invRef ≠ exHopperIns.invRef := by
  decide

/-! ## Witnesses -/

/-- Witness for C3 at a hopper with a pending transfer cooldown. -/
theorem hopper_tick_cooldown_witness :
    (exHopperCooling.Tick 2 exWorldIns).hopper.LastTick = 2 ∧
    ((exHopperCooling.Tick 2 exWorldIns).published =
      some { exHopperCooling with
              TransferCooldown := exHopperCooling.TransferCooldown - 1
              CollectCooldown := exHopperCooling.CollectCooldown - 1
              LastTick := 2 } ∧
      (exHopperCooling.Tick 2 exWorldIns).attempted = false) :=
  ⟨(hopper_tick_cooldown exHopperCooling 2 exWorldIns).1,
   (hopper_tick_cooldown exHopperCooling 2 exWorldIns).2 (by decide)⟩

/-- Witness for C1 (amended) at a tick with a successful insertion. -/
theorem hopper_success_resets_cooldowns_witness :
    ∃ hp, (exHopperIns.Tick 1 exWorldIns).published = some hp ∧
      hp.TransferCooldown = 8 ∧ hp.CollectCooldown = 0 ∧ hp.LastTick = 1 :=
  hopper_success_resets_cooldowns exHopperIns 1 exWorldIns (Or.inl (by decide))

/-- Witness for C4 at a powered hopper over three ticks. -/
theorem hopper_powered_no_transfer_witness :
    (exHopperPowered.Tick 1 exWorldIns).attempted = false ∧
    (runTicks exHopperPowered exWorldIns [1, 2, 3]).1.inventory =
      exHopperPowered.inventory :=
  hopper_powered_no_transfer exHopperPowered exWorldIns 1 [1, 2, 3] (by decide)

/-- Witness for C5 at a hopper with no adjacent containers. -/
theorem hopper_failed_transfer_no_mutation_witness :
    ((exHopperIns.insertItem exWorldNone).hInv = exHopperIns.inventory ∧
      (exHopperIns.insertItem exWorldNone).world.destInv = exWorldNone.destInv ∧
      (exHopperIns.insertItem exWorldNone).world.aboveInv = exWorldNone.aboveInv) ∧
    ((exHopperIns.extractItem exWorldNone).hInv = exHopperIns.inventory ∧
      (exHopperIns.extractItem exWorldNone).world.destInv = exWorldNone.destInv ∧
      (exHopperIns.extractItem exWorldNone).world.aboveInv = exWorldNone.aboveInv) :=
  ⟨(hopper_failed_transfer_no_mutation exHopperIns exWorldNone).1 (by decide),
   (hopper_failed_transfer_no_mutation exHopperIns exWorldNone).2 (by decide)⟩

/-- Witness for C2 at a hopper that both inserts below-capacity and extracts
from above. -/
theorem hopper_transfer_moves_one_unit_witness :
    (∃ i s d, exHopperIns.inventory[i]? = some s ∧ s.Empty = false ∧
      (exHopperIns.insertItem exWorldBoth).hInv =
        Inv.setItem exHopperIns.inventory i (s.Grow (-1)) ∧
      exWorldBoth.destInv = some d ∧
      ∃ d2, (exHopperIns.insertItem exWorldBoth).world.destInv = some d2 ∧
        Inv.total d2 = Inv.total d + 1 ∧
        Inv.total exHopperIns.inventory =
          Inv.total (exHopperIns.insertItem exWorldBoth).hInv + 1 ∧
        Inv.total (exHopperIns.insertItem exWorldBoth).hInv + Inv.total d2 =
          Inv.total exHopperIns.inventory + Inv.total d) ∧
    (∃ j s2 a, exWorldBoth.aboveInv = some a ∧ a[j]? = some s2 ∧ s2.Empty = false ∧
      (exHopperIns.extractItem exWorldBoth).world.aboveInv =
        some (Inv.setItem a j (s2.Grow (-1))) ∧
      Inv.total (exHopperIns.extractItem exWorldBoth).hInv =
        Inv.total exHopperIns.inventory + 1 ∧
      Inv.total a = Inv.total (Inv.setItem a j (s2.Grow (-1))) + 1 ∧
      Inv.total (exHopperIns.extractItem exWorldBoth).hInv +
          Inv.total (Inv.setItem a j (s2.Grow (-1))) =
        Inv.total exHopperIns.inventory + Inv.total a) :=
  ⟨(hopper_transfer_moves_one_unit exHopperIns exWorldBoth
      (by
        intro c o hc ho
        rw [show exWorldBoth.dest =
          some (⟨some (List.replicate 5 emptyStack), none, none⟩ : Container) from rfl] at hc
        cases hc
        exact Option.noConfusion ho)
      (by
        intro c p hc hp
        rw [show exWorldBoth.above =
          some (⟨some [emptyStack, emptyStack, ⟨2, 5, 64⟩, emptyStack, emptyStack],
            none, none⟩ : Container) from rfl] at hc
        cases hc
        exact Option.noConfusion hp)).1 (by decide),
   (hopper_transfer_moves_one_unit exHopperIns exWorldBoth
      (by
        intro c o hc ho
        rw [show exWorldBoth.dest =
          some (⟨some (List.replicate 5 emptyStack), none, none⟩ : Container) from rfl] at hc
        cases hc
        exact Option.noConfusion ho)
      (by
        intro c p hc hp
        rw [show exWorldBoth.above =
          some (⟨some [emptyStack, emptyStack, ⟨2, 5, 64⟩, emptyStack, emptyStack],
            none, none⟩ : Container) from rfl] at hc
        cases hc
        exact Option.noConfusion hp)).2 (by decide)⟩

/-- Witness for C7 at a hopper with a non-empty label and stored cooldown. -/
theorem hopper_nbt_roundtrip_witness :
    (exHopperNamed.DecodeNBT exHopperNamed.EncodeNBT 3).inventory =
      exHopperNamed.inventory ∧
    Hopper.EncodeNBT (exHopperNamed.DecodeNBT exHopperNamed.EncodeNBT 3) =
      exHopperNamed.EncodeNBT ∧
    List.lookup "CustomName" exHopperNamed.EncodeNBT =
      (if exHopperNamed.CustomName = "" then none
       else some (NbtValue.str exHopperNamed.CustomName)) :=
  hopper_nbt_roundtrip exHopperNamed exHopperNamed 3 (by decide)

/-- Witness for C10 at a click on the north face. -/
theorem hopper_use_on_block_facing_witness :
    ∃ hp, Hopper.UseOnBlock exHopperIns Face.north true 0 = some hp ∧
      (Face.north = Face.down → hp.Facing = Face.down) ∧
      (Face.north ≠ Face.down → hp.Facing = Face.north.Opposite) :=
  hopper_use_on_block_facing exHopperIns Face.north true 0 rfl

end Libellule
